import Mathlib

/-!
# Template registry, renderer and page context (package `templates`)

A shallow embedding of `template.go` and `tork.go`.

Modelling conventions

* A Go `string` is a Lean `String`; every operation of the program that looks
  inside a string (slicing, `path.Base`, `path.Ext`, `strings.LastIndex`, ...)
  works on the sequence of its characters `s.data`.  The only characters the
  program inspects are the ASCII characters `/`, `\` and `.`.
* A Go `error` is a `GoError` carrying the text returned by `Error()`; a nilable
  error is an `Option GoError`.
* Package level variables (`tplMap`, `MyTemplates`) are the fields of `World`.
* Everything the program obtains from outside the package (the file system, the
  operating system, the template parser and executor, the clock) is a field of
  `Env`.
* Side effects are recorded, in order, as a list of `Event`s.
* A run-time panic (nil dereference, slice bounds) is the outcome `Outcome.panic`.
-/

namespace Templates

/-! ## Go values -/

/-- A non-nil Go `error`: the text its `Error()` method returns. -/
structure GoError where
  msg : String
deriving DecidableEq

/-- The result of a Go call: it returns a value or it panics. -/
inductive Outcome (α : Type) where
  | ret (a : α)
  | panic (why : String)
deriving DecidableEq

/-- Observable side effects of the package, in the order they happen. -/
inductive Event where
  | log (text : String)
  | readFile (fp : String)
  | clone
  | parse (name : String) (text : String)
  | execute (name : String)
  | write (bytes : String)
deriving DecidableEq

/-! ## The Go standard library functions the package calls -/

/-- The slice expression `s[i:j]`; `none` is the run-time panic for indices out of range. -/
def goSlice (s : String) (i j : Int) : Option String :=
  if 0 ≤ i ∧ i ≤ j ∧ j ≤ (s.length : Int) then
    some ⟨(s.data.drop i.toNat).take (j.toNat - i.toNat)⟩
  else none

/-- Scan of `strings.LastIndex` from start position `i` downwards. -/
def lastIndexFrom (s sub : List Char) : Nat → Int
  | 0 => if sub.isPrefixOf s then 0 else -1
  | i + 1 => if sub.isPrefixOf (s.drop (i + 1)) then ((i + 1 : Nat) : Int) else lastIndexFrom s sub i

/-- The function `strings.LastIndex(s, substr)`: index of the last occurrence, or `-1`. -/
def stringsLastIndex (s substr : String) : Int :=
  if substr.length ≤ s.length then lastIndexFrom s.data substr.data (s.length - substr.length)
  else -1

/-- Whether `sub` occurs in the list at some position. -/
def containsData (sub : List Char) : List Char → Bool
  | [] => sub.isPrefixOf []
  | c :: cs => sub.isPrefixOf (c :: cs) || containsData sub cs

/-- The function `strings.Contains(s, substr)`. -/
def stringsContains (s substr : String) : Bool :=
  containsData substr.data s.data

/-- The function `path.Base`: strip trailing slashes, keep what follows the last slash;
the empty path gives ".", a path of slashes only gives "/".
The lists are scanned from the end, as the loops of the Go function do. -/
def pathBase (p : String) : String :=
  if p = "" then "."
  else
    let stripped := p.data.reverse.dropWhile (fun c => c = '/')
    let last := (stripped.takeWhile (fun c => c ≠ '/')).reverse
    if last = [] then "/" else ⟨last⟩

/-- The loop of `Ext`: walk from the last character towards the front, stop at a
separator (no extension) or at the first dot met (the extension starts there).
`acc` is the part of the path already walked over. -/
def extLoop (isSep : Char → Bool) : List Char → List Char → List Char
  | [], _ => []
  | c :: rest, acc =>
    if isSep c then []
    else if c = '.' then c :: acc
    else extLoop isSep rest (c :: acc)

/-- The function `path.Ext`: the separator is always the slash. -/
def pathExt (p : String) : String :=
  ⟨extLoop (fun c => c = '/') p.data.reverse []⟩

/-- The function `os.IsPathSeparator`. -/
def isPathSeparator (windows : Bool) (c : Char) : Bool :=
  if windows then c = '\\' || c = '/' else c = '/'

/-- The function `filepath.Ext` for the platform. -/
def filepathExt (windows : Bool) (p : String) : String :=
  ⟨extLoop (isPathSeparator windows) p.data.reverse []⟩

/-- The constant `filepath.Separator`. -/
def separator (windows : Bool) : Char :=
  if windows then '\\' else '/'

/-- The function `filepath.ToSlash`. -/
def filepathToSlash (windows : Bool) (p : String) : String :=
  if windows then ⟨p.data.map (fun c => if c = '\\' then '/' else c)⟩ else p

/-- The star of `filepath.Match("*.html", name)`: the chunk ".html" is tried at the
current position and must use up the name; otherwise the star swallows one more
character, which may not be the separator. -/
def matchStarHtml (sep : Char) : List Char → Bool
  | [] => false
  | c :: rest => (c :: rest == ".html".data) || (c != sep && matchStarHtml sep rest)

/-- The call `filepath.Match("*.html", name)`. The pattern is well formed, so the error
result is always nil and only `matched` is modelled. -/
def filepathMatchHtml (windows : Bool) (name : String) : Bool :=
  matchStarHtml (separator windows) name.data

/-- What `os.Stat` can answer. -/
inductive StatResult where
  | found
  | notExist
  | otherError
deriving DecidableEq

/-- The predicate `os.IsNotExist(err)` on the error of `os.Stat`. -/
def StatResult.isNotExist : StatResult → Bool
  | StatResult.notExist => true
  | _ => false

/-- The part of an `os.FileInfo` that the walk callback uses. -/
structure FileInfo where
  Name : String
  IsDir : Bool
deriving DecidableEq

/-! ## The `html/template` calls made on `MyTemplates`

`MyTemplates` points to one `*template.Template`, the root. The model keeps what the
program can observe through that pointer: the root's name, the map `set` of its name
space (name to template, a template having a parse tree or none yet), and the map of the
underlying `text/template` name space (name to parse tree). -/

/-- A parse tree: the text it was parsed from and the value of `parse.IsEmptyTree` on it
(true for a text that holds nothing but space, comments and define blocks). -/
structure Tree where
  text : String
  isEmpty : Bool
deriving DecidableEq

/-- The root template behind `MyTemplates`. `set k` is `none` when `Lookup(k)` is nil,
`some none` for a template without parse tree and `some (some tree)` for a parsed one;
`selfEntry` says whether the entry of `set` under the root's own name is the root object
itself; `common` is the map of the `text/template` name space. -/
structure Template where
  name : String
  selfEntry : Bool
  set : String → Option (Option Tree)
  common : String → Option Tree

/-- The function `template.New(name)` of `html/template`: a template without tree that is
the only entry of its own, fresh name space. -/
def templateNew (name : String) : Template :=
  { name := name
    selfEntry := true
    set := fun k => if k = name then some none else none
    common := fun _ => none }

/-- The method `AddParseTree` of `text/template` on the map of the name space: the tree
is installed under the name, except that an empty tree does not replace a template that
is already there. -/
def addParseTree (common : String → Option Tree) (name : String) (tree : Tree) :
    String → Option Tree :=
  fun k =>
    if k = name then
      (match common name with
        | some old => if tree.isEmpty then some old else some tree
        | none => some tree)
    else common k

/-- The loop of `text/template`'s `Parse` over the trees that the parser returned. -/
def addParseTrees (common : String → Option Tree) : List (String × Tree) → String → Option Tree
  | [] => common
  | (n, tree) :: rest => addParseTrees (addParseTree common n tree) rest

/-- The loop that ends `html/template`'s `Parse`: every template of the text name space
gets (or keeps) an entry in `set`, with the tree of the text template. -/
def syncSet (set : String → Option (Option Tree)) (common : String → Option Tree) :
    String → Option (Option Tree) :=
  fun k =>
    match common k with
    | some tree => some (some tree)
    | none => set k

/-- The calls `t.New(name).Funcs(funcs).Parse(text)` on the non-nil root `t`, as seen
through `t` afterwards.

`New` builds a template in the name space of `t`; if the name space already has an entry
under `name`, that existing template object is overwritten by a fresh empty template
with a fresh name space of its own. When the existing object is `t` itself (the root is
still the entry under its own name), `t` therefore ends as an empty template whose name
space holds its name only, and the template that is parsed afterwards lives in the
name space that `t` has left. Otherwise the new, tree-less template becomes the entry
under `name`; a failed `Parse` leaves it so, a successful `Parse` installs the tree
`own` of the template and the trees `defs` of the define blocks of the text. -/
def Template.newParse (t : Template) (name : String) (parseErr : Option GoError) (own : Tree)
    (defs : List (String × Tree)) : Template :=
  if t.selfEntry && name == t.name then
    { name := t.name
      selfEntry := false
      set := fun k => if k = t.name then some none else none
      common := fun _ => none }
  else
    let set1 : String → Option (Option Tree) := fun k => if k = name then some none else t.set k
    match parseErr with
    | some _ => { t with set := set1 }
    | none =>
      let common1 := addParseTree (addParseTrees t.common defs) name own
      { t with set := syncSet set1 common1, common := common1 }

/-! ## `tork.go`: the page context -/

/-- A value stored in the `interface{}` field `Content`. -/
inductive Value where
  | nil
  | str (s : String)
  | err (e : GoError)
  | other (descr : String)
deriving DecidableEq

/-- The fields of `*http.Request` that the package reads. -/
structure Request where
  RequestURI : String
  URLPath : String
deriving DecidableEq

/-- The struct `Page`. Pointers and interfaces are options (`none` is nil); the
response writer and the cached user are abstract references. -/
structure Page where
  Content : Value
  BodyClass : String
  FooterScripts : List String
  Request : Option Request
  Response : Option Nat
  SiteTitle : String
  PageTitle : String
  CurDate : Nat
  Referrer : String
  HasPageJS : Bool
  PageJSFileName : String
  User : String
  SiteAuthor : String
  Params : List (String × String)
  UserHash : String
  UserCache : Option Nat
deriving DecidableEq

/-- The value of `new(Page)`: every field is its zero value. -/
def Page.zero : Page :=
  { Content := Value.nil, BodyClass := "", FooterScripts := [], Request := none,
    Response := none, SiteTitle := "", PageTitle := "", CurDate := 0, Referrer := "",
    HasPageJS := false, PageJSFileName := "", User := "", SiteAuthor := "", Params := [],
    UserHash := "", UserCache := none }

/-- The method `AddScript`. -/
def Page.AddScript (p : Page) (s : String) : Page :=
  { p with FooterScripts := p.FooterScripts ++ [s] }

/-! ## The environment and the package state -/

/-- Everything the package obtains from outside itself. -/
structure Env where
  /-- Whether `runtime.GOOS == "windows"`. -/
  windows : Bool
  /-- The call `ioutil.ReadFile(fp)`: the contents, or the error. -/
  readFile : String → Except GoError String
  /-- The error, if any, with which `Parse` rejects a template text. -/
  parseErr : String → Option GoError
  /-- For a text that parses as the template `name`: the tree that the parser leaves
  under the template's own name. -/
  ownTree : String → String → Tree
  /-- For a text that parses as the template `name`: the trees that the parser leaves
  under other names, one for each define block. -/
  defineTrees : String → String → List (String × Tree)
  /-- The error, if any, with which `Clone` rejects the shared template. -/
  cloneErr : Template → Option GoError
  /-- The call `tpl.Execute(w, data)`, where `tpl` is the template that was parsed from
  the text `td` under `name` in a clone of the shared template: the bytes it writes to `w`
  and the error it returns. -/
  execute : Template → String → String → Page → String × Option GoError
  /-- The call `os.Stat(path)`. -/
  stat : String → StatResult
  /-- The call `time.Now()`. -/
  now : Nat

/-- The package level variables `tplMap` and `MyTemplates` (nil before `Setup`). -/
structure World where
  tplMap : String → Option String
  MyTemplates : Option Template

/-- The state left by a call, the effects it had, and how it ended. -/
structure Step (α : Type) where
  world : World
  trace : List Event
  outcome : Outcome α

/-! ## `template.go`: the registry -/

/-- The function `getTplFromMap`. -/
def getTplFromMap (w : World) (name : String) : String × Option GoError :=
  match w.tplMap name with
  | some val => (val, none)
  | none => ("", some ⟨"could not find path for template: " ++ name⟩)

/-- The function `appendTplMap`. -/
def appendTplMap (w : World) (name : String) (path : String) : World :=
  { w with tplMap := fun k => if k = name then some path else w.tplMap k }

/-- The lines of `appendTemplate` that compute `sName` (`none` is a slice out of range). -/
def sNameOf (windows : Bool) (fp : String) : Option String :=
  if windows then
    let i := stringsLastIndex fp "\\" + 1
    let j := stringsLastIndex fp (pathExt fp)
    goSlice fp i j
  else
    some (pathBase fp)

/-- The lines of `appendTemplate` that compute `name` from `sName`. -/
def nameOf (windows : Bool) (sName : String) : Option String :=
  let extension := filepathExt windows sName
  goSlice sName 0 ((sName.length : Int) - (extension.length : Int))

/-- The function `appendTemplate`, the callback of `filepath.Walk`. Its named result `e`
is only ever assigned the (nil) error of `filepath.Match`. -/
def appendTemplate (env : Env) (w : World) (fp : String) (fi : Option FileInfo)
    (err : Option GoError) : Step (Option GoError) :=
  let tr0 : List Event :=
    match err with
    | some e0 => [Event.log ("Cannot walk template directory: " ++ e0.msg)]
    | none => []
  match fi with
  | none => ⟨w, tr0, Outcome.panic "nil FileInfo"⟩
  | some info =>
    if info.IsDir then ⟨w, tr0, Outcome.ret none⟩
    else
      let matched := filepathMatchHtml env.windows info.Name
      if matched then
        match sNameOf env.windows fp with
        | none => ⟨w, tr0, Outcome.panic "slice bounds out of range"⟩
        | some sName =>
          match nameOf env.windows sName with
          | none => ⟨w, tr0, Outcome.panic "slice bounds out of range"⟩
          | some name =>
            let w1 := appendTplMap w name fp
            if stringsContains (filepathToSlash env.windows fp) "/inc/" then
              match env.readFile fp with
              | Except.error _ =>
                ⟨w1, tr0 ++ [Event.readFile fp,
                  Event.log ("Could not read contents of template file: " ++ sName ++ ":")],
                  Outcome.ret none⟩
              | Except.ok data =>
                match w1.MyTemplates with
                | none => ⟨w1, tr0 ++ [Event.readFile fp], Outcome.panic "nil MyTemplates"⟩
                | some root =>
                  ⟨{ w1 with MyTemplates := some (root.newParse name (env.parseErr data)
                      (env.ownTree name data) (env.defineTrees name data)) },
                    tr0 ++ [Event.readFile fp, Event.parse name data], Outcome.ret none⟩
            else ⟨w1, tr0, Outcome.ret none⟩
      else ⟨w, tr0, Outcome.ret none⟩

/-! ## `template.go`: the renderer -/

/-- The function `RenderTemplate`. The named result `err` is the variable every
`:=` of the body assigns, so the bare `return` after a failed read returns the read error.
The result is the list of effects and the returned error (or the panic). -/
def RenderTemplate (env : Env) (world : World) (w : Option Nat) (name : String) (data : Page) :
    List Event × Outcome (Option GoError) :=
  let _ := w
  match getTplFromMap world name with
  | (_, some err) =>
    ([Event.log ("Could not load template " ++ name ++ " \n" ++ err.msg ++ "\n")],
      Outcome.ret (some err))
  | (fp, none) =>
    match env.readFile fp with
    | Except.error err =>
      ([Event.readFile fp, Event.log ("Could not read contents of template file: " ++ fp ++ ":")],
        Outcome.ret (some err))
    | Except.ok td =>
      let tr1 : List Event := [Event.readFile fp, Event.clone]
      match world.MyTemplates with
      | none => (tr1, Outcome.panic "nil MyTemplates")
      | some shared =>
        match env.cloneErr shared with
        | some _ =>
          -- the error is logged, `t` is nil and `t.New(name)` dereferences it
          (tr1 ++ [Event.log "Could not clone my templates for use"],
            Outcome.panic "nil template in New")
        | none =>
          let tr2 := tr1 ++ [Event.parse name td]
          match env.parseErr td with
          | some perr =>
            -- the error is logged, `tpl` is nil and `tpl.Execute` dereferences it
            (tr2 ++ [Event.log ("Could not read template " ++ name ++ ":\nError: " ++ perr.msg
                ++ "\n"), Event.execute name],
              Outcome.panic "nil template in Execute")
          | none =>
            let (out, xerr) := env.execute shared name td data
            let tr3 := tr2 ++ [Event.execute name, Event.write out]
            match xerr with
            | some err =>
              (tr3 ++ [Event.log ("Could not execute template " ++ name ++ "\nError: " ++ err.msg
                  ++ "\n")], Outcome.ret (some err))
            | none => (tr3, Outcome.ret none)

/-! ## `template.go`: the render variants of a page -/

/-- The arguments of the call of `RenderTemplate` in which a render variant ends:
`RenderTemplate(my.Response, name, my)`. -/
structure RenderCall where
  w : Option Nat
  name : String
  data : Page
deriving DecidableEq

/-- The loop `for i := len(fs) - 1; i >= 0; i-- { scripts = append(scripts, fs[i]) }`,
with `n = i + 1`. -/
def scriptsLoop (fs : List String) : Nat → List String → List String
  | 0, scripts => scripts
  | i + 1, scripts => scriptsLoop fs i (scripts ++ [fs.getD i ""])

/-- The value of `scripts` after the loop that opens every render variant. -/
def reversedScripts (fs : List String) : List String :=
  scriptsLoop fs fs.length []

/-- The method `Render`. -/
def Page.Render (my : Page) (tpl : String) : Outcome RenderCall :=
  let scripts := reversedScripts my.FooterScripts
  let my1 := { my with FooterScripts := scripts }
  Outcome.ret ⟨my1.Response, tpl, my1⟩

/-- The method `RenderRedirect`. -/
def Page.RenderRedirect (my : Page) (location : String) (doOriginRedirect : Bool) :
    Outcome RenderCall :=
  let scripts := reversedScripts my.FooterScripts
  let step : Option Page :=
    if doOriginRedirect then
      match my.Request with
      | none => none
      | some r => some { my with Content := Value.str (location ++ "?origin=" ++ r.RequestURI) }
    else some { my with Content := Value.str location }
  match step with
  | none => Outcome.panic "nil Request"
  | some my1 =>
    let my2 := { my1 with FooterScripts := scripts }
    let my3 := { my2 with Content := Value.str location }
    Outcome.ret ⟨my3.Response, "redirect", my3⟩

/-- The method `RenderError`, for a non-nil `err`. -/
def Page.RenderError (my : Page) (err : GoError) : Outcome RenderCall :=
  let scripts := reversedScripts my.FooterScripts
  let my1 := { my with FooterScripts := scripts }
  if err.msg = "The access token being passed has expired or is invalid." then
    my1.RenderRedirect "/td/renew" true
  else
    let my2 := { my1 with Content := Value.err err }
    Outcome.ret ⟨my2.Response, "error", my2⟩

/-- The method `RenderNotFound`. -/
def Page.RenderNotFound (my : Page) : Outcome RenderCall :=
  let scripts := reversedScripts my.FooterScripts
  let my1 := { my with FooterScripts := scripts }
  match my1.Request with
  | none => Outcome.panic "nil Request"
  | some r =>
    let my2 := { my1 with Content := Value.str r.RequestURI }
    Outcome.ret ⟨my2.Response, "404", my2⟩

/-- The method `RenderUnauthorized`. -/
def Page.RenderUnauthorized (my : Page) : Outcome RenderCall :=
  let scripts := reversedScripts my.FooterScripts
  let my1 := { my with FooterScripts := scripts }
  match my1.Request with
  | none => Outcome.panic "nil Request"
  | some r =>
    let my2 := { my1 with Content := Value.str r.RequestURI }
    Outcome.ret ⟨my2.Response, "403", my2⟩

/-! ## `template.go`: the page context builder -/

/-- The function `GenerateDefaults`. -/
def GenerateDefaults (env : Env) (p : Page) : Page :=
  { p with CurDate := env.now }

/-- The value of `scriptPath` that `GetBasePage` hands to `os.Stat`. -/
def scriptPathOf (urlPath : String) : String :=
  let scriptPath := "static/js" ++ urlPath ++ "." ++ "js"
  if pathBase scriptPath = ".js" then "static/js" ++ urlPath ++ "index." ++ "js"
  else scriptPath

/-- The function `GetBasePage`, for a non-nil request `r`. -/
def GetBasePage (env : Env) (w : Option Nat) (r : Request) (params : List (String × String))
    (pageTitle : String) : Page :=
  let p := GenerateDefaults env Page.zero
  let scriptPath := scriptPathOf r.URLPath
  let p1 :=
    if !(env.stat scriptPath).isNotExist then
      { p with PageJSFileName := "/" ++ scriptPath, HasPageJS := true }
    else p
  { p1 with Params := params, BodyClass := "sb-nav-fixed", PageTitle := pageTitle,
            SiteTitle := "Unknown Site Title", User := "Anonymous",
            SiteAuthor := "Nitecon Studios LLC", Request := some r, Response := w }

/-! ## Concrete inputs -/

/-- A small environment: "tpl/gone.html" cannot be read, "tpl/broken.html" holds a text
that does not parse, every other file holds a text that parses to one non-empty tree
without define blocks; only the page script of "/about" exists. -/
def demoEnv (windows : Bool) : Env :=
  { windows := windows
    readFile := fun fp =>
      if fp = "tpl/gone.html" then Except.error ⟨"open tpl/gone.html: permission denied"⟩
      else if fp = "tpl/broken.html" then Except.ok "broken"
      else Except.ok "hello"
    parseErr := fun text => if text = "broken" then some ⟨"template: unexpected EOF"⟩ else none
    ownTree := fun _ text => ⟨text, false⟩
    defineTrees := fun _ _ => []
    cloneErr := fun _ => none
    execute := fun _ name _ _ => ("<p>" ++ name ++ "</p>", none)
    stat := fun p => if p = "static/js/about.js" then StatResult.found else StatResult.notExist
    now := 0 }

/-- The package state after `Setup` on a tree with three page templates: `MyTemplates`
holds only the root template "templates" created by `template.New`. -/
def demoWorld : World :=
  { tplMap := fun k =>
      if k = "home" then some "tpl/home.html"
      else if k = "gone" then some "tpl/gone.html"
      else if k = "broken" then some "tpl/broken.html"
      else none
    MyTemplates := some (templateNew "templates") }

/-- A page for the request "/home?x=1" to which the scripts a, b, c were added in order. -/
def demoPage : Page :=
  (({ Page.zero with Request := some ⟨"/home?x=1", "/home"⟩ }.AddScript "a").AddScript
    "b").AddScript "c"

/-- The error whose message `RenderError` treats as an expired credential. -/
def expiredErr : GoError :=
  ⟨"The access token being passed has expired or is invalid."⟩

/-! ## Facts about the library functions -/

theorem takeWhile_append_stop (p : Char → Bool) (l r : List Char)
    (hl : ∀ x ∈ l, p x = true) (hr : r = [] ∨ ∃ a r1, r = a :: r1 ∧ p a = false) :
    (l ++ r).takeWhile p = l := by
  induction l with
  | nil =>
    rcases hr with rfl | ⟨a, r1, rfl, ha⟩
    · rfl
    · simp [List.takeWhile, ha]
  | cons x xs ih =>
    have hx : p x = true := hl x (List.mem_cons_self _ _)
    have hxs : ∀ y ∈ xs, p y = true := fun y hy => hl y (List.mem_cons_of_mem _ hy)
    simp [List.takeWhile, hx, ih hxs]

/-- The pattern `*.html` matches exactly the names `stem ++ ".html"` whose stem has no
separator. -/
theorem matchStarHtml_iff (sep : Char) (l : List Char) :
    matchStarHtml sep l = true ↔ ∃ s : List Char, l = s ++ ".html".data ∧ sep ∉ s := by
  induction l with
  | nil =>
    simp only [matchStarHtml]
    constructor
    · intro h; cases h
    · rintro ⟨s, hs, _⟩
      have := congrArg List.length hs
      simp at this
  | cons c rest ih =>
    simp only [matchStarHtml, Bool.or_eq_true, Bool.and_eq_true, beq_iff_eq, bne_iff_ne]
    constructor
    · rintro (h | ⟨hc, hrest⟩)
      · exact ⟨[], by simpa using h, by simp⟩
      · obtain ⟨s, hs, hsep⟩ := ih.mp hrest
        refine ⟨c :: s, by simp [hs], ?_⟩
        simp only [List.mem_cons, not_or]
        exact ⟨fun h => hc h.symm, hsep⟩
    · rintro ⟨s, hs, hsep⟩
      cases s with
      | nil => left; simpa using hs
      | cons d s1 =>
        right
        simp only [List.cons_append, List.cons.injEq] at hs
        obtain ⟨rfl, hrest⟩ := hs
        simp only [List.mem_cons, not_or] at hsep
        exact ⟨fun h => hsep.1 h.symm, ih.mpr ⟨s1, hrest, hsep.2⟩⟩

theorem pathBase_file (pre name : String) (hpre : pre = "" ∨ ∃ d : String, pre = d ++ "/")
    (hne : name ≠ "") (hns : '/' ∉ name.data) : pathBase (pre ++ name) = name := by
  have hdata : name.data ≠ [] := fun h => hne (String.ext h)
  have h1 : pre ++ name ≠ "" := by
    intro h
    have h2 := congrArg String.data h
    simp at h2
    exact hdata h2.2
  have hrev : (pre ++ name).data.reverse = name.data.reverse ++ pre.data.reverse := by simp
  have hr : pre.data.reverse = [] ∨
      ∃ a r1, pre.data.reverse = a :: r1 ∧ (fun c : Char => decide (c ≠ '/')) a = false := by
    rcases hpre with rfl | ⟨d, rfl⟩
    · left; rfl
    · right; exact ⟨'/', d.data.reverse, by simp, by simp⟩
  have hall : ∀ x ∈ name.data.reverse, (fun c : Char => decide (c ≠ '/')) x = true := by
    intro x hx
    have hx1 : x ∈ name.data := List.mem_reverse.mp hx
    have : x ≠ '/' := fun h => hns (h ▸ hx1)
    simpa using this
  have hdrop : (name.data.reverse ++ pre.data.reverse).dropWhile (fun c => decide (c = '/'))
      = name.data.reverse ++ pre.data.reverse := by
    cases hn : name.data.reverse with
    | nil => exact absurd (List.reverse_eq_nil_iff.mp hn) hdata
    | cons x xs =>
      have hx : x ≠ '/' := by
        have := hall x (by rw [hn]; exact List.mem_cons_self _ _)
        simpa using this
      simp [List.dropWhile, hx]
  unfold pathBase
  rw [if_neg h1]
  simp only [hrev, hdrop, takeWhile_append_stop _ _ _ hall hr, List.reverse_reverse]
  rw [if_neg hdata]

theorem filepathExt_html (windows : Bool) (stem : String) :
    filepathExt windows (stem ++ ".html") = ".html" := by
  have hrev : (stem ++ ".html").data.reverse = 'l' :: 'm' :: 't' :: 'h' :: '.' :: stem.data.reverse := by
    simp
  unfold filepathExt
  rw [hrev]
  cases windows <;> simp [extLoop, isPathSeparator]

theorem nameOf_html (windows : Bool) (stem : String) :
    nameOf windows (stem ++ ".html") = some stem := by
  unfold nameOf
  simp only [filepathExt_html]
  have hlen : (stem ++ ".html").length = stem.data.length + 5 := by
    rw [String.length_append]; rfl
  have h5 : (".html" : String).length = 5 := rfl
  unfold goSlice
  rw [hlen, h5]
  have hc : (0 : Int) ≤ 0 ∧ (0 : Int) ≤ ((stem.data.length + 5 : Nat) : Int) - ((5 : Nat) : Int) ∧
      ((stem.data.length + 5 : Nat) : Int) - ((5 : Nat) : Int) ≤ ((stem.data.length + 5 : Nat) : Int) := by
    omega
  rw [if_pos hc]
  have ht : (((stem.data.length + 5 : Nat) : Int) - ((5 : Nat) : Int)).toNat - (0 : Int).toNat
      = stem.data.length := by
    omega
  rw [ht]
  simp

theorem lastIndexFrom_hit (s sub : List Char) (n : Nat)
    (h : sub.isPrefixOf (s.drop n) = true) : lastIndexFrom s sub n = (n : Int) := by
  cases n with
  | zero => simp only [List.drop_zero] at h; simp [lastIndexFrom, h]
  | succ k => simp [lastIndexFrom, h]

theorem lastIndexFrom_absent (c : Char) (s : List Char) (hc : c ∉ s) (n : Nat) :
    lastIndexFrom s [c] n = -1 := by
  have hno : ∀ k, List.isPrefixOf [c] (s.drop k) = false := by
    intro k
    cases hd : s.drop k with
    | nil => rfl
    | cons x xs =>
      have hx : x ∈ s := List.mem_of_mem_drop (by rw [hd]; exact List.mem_cons_self _ _)
      have : c ≠ x := fun h => hc (h ▸ hx)
      simp [List.isPrefixOf, this]
  induction n with
  | zero => have := hno 0; simp only [List.drop_zero] at this; simp [lastIndexFrom, this]
  | succ k ih => simp [lastIndexFrom, hno (k + 1), ih]

theorem lastIndexFrom_last (c : Char) (d rest : List Char) (hc : c ∉ rest) (n : Nat)
    (hn : d.length ≤ n) : lastIndexFrom (d ++ c :: rest) [c] n = (d.length : Int) := by
  induction n with
  | zero =>
    have hd : d = [] := List.length_eq_zero.mp (Nat.le_zero.mp hn)
    subst hd
    simp [lastIndexFrom, List.isPrefixOf]
  | succ k ih =>
    by_cases hk : d.length = k + 1
    · rw [← hk]
      apply lastIndexFrom_hit
      simp [List.isPrefixOf]
    · have hle : d.length ≤ k := by omega
      have hdrop : (d ++ c :: rest).drop (k + 1) = rest.drop (k - d.length) := by
        rw [List.drop_append_eq_append_drop]
        have h1 : d.drop (k + 1) = [] := List.drop_eq_nil_of_le (by omega)
        have h2 : k + 1 - d.length = (k - d.length) + 1 := by omega
        rw [h1, h2]; simp
      have hno : List.isPrefixOf [c] ((d ++ c :: rest).drop (k + 1)) = false := by
        rw [hdrop]
        cases hd : rest.drop (k - d.length) with
        | nil => rfl
        | cons x xs =>
          have hx : x ∈ rest := List.mem_of_mem_drop (by rw [hd]; exact List.mem_cons_self _ _)
          have : c ≠ x := fun h => hc (h ▸ hx)
          simp [List.isPrefixOf, this]
      simp only [lastIndexFrom, hno]
      simpa using ih hle

theorem pathExt_html (pre stem : String) : pathExt (pre ++ (stem ++ ".html")) = ".html" := by
  have hrev : (pre ++ (stem ++ ".html")).data.reverse
      = 'l' :: 'm' :: 't' :: 'h' :: '.' :: (stem.data.reverse ++ pre.data.reverse) := by
    simp
  unfold pathExt
  rw [hrev]
  simp [extLoop]

theorem stringsLastIndex_html (pre stem : String) :
    stringsLastIndex (pre ++ (stem ++ ".html")) ".html"
      = ((pre.data.length + stem.data.length : Nat) : Int) := by
  have hlen : (pre ++ (stem ++ ".html")).length = pre.data.length + stem.data.length + 5 := by
    rw [String.length_append, String.length_append]
    show pre.data.length + (stem.data.length + 5) = _
    omega
  have h5 : (".html" : String).length = 5 := rfl
  unfold stringsLastIndex
  rw [hlen, h5, if_pos (by omega)]
  have hn : pre.data.length + stem.data.length + 5 - 5 = pre.data.length + stem.data.length := by
    omega
  rw [hn]
  apply lastIndexFrom_hit
  have hd : (pre ++ (stem ++ ".html")).data = (pre.data ++ stem.data) ++ (".html" : String).data := by
    simp
  have hz : List.drop (pre.data.length + stem.data.length) (pre.data ++ stem.data) = [] :=
    List.drop_eq_nil_of_le (by simp)
  have hsub : pre.data.length + stem.data.length - (pre.data ++ stem.data).length = 0 := by
    simp
  rw [hd, List.drop_append_eq_append_drop, hz, hsub]
  rfl

theorem stringsLastIndex_backslash (pre stem : String)
    (hpre : pre = "" ∨ ∃ d : String, pre = d ++ "\\") (hs : '\\' ∉ stem.data) :
    stringsLastIndex (pre ++ (stem ++ ".html")) "\\" + 1 = (pre.data.length : Int) := by
  have hlen : (pre ++ (stem ++ ".html")).length = pre.data.length + stem.data.length + 5 := by
    rw [String.length_append, String.length_append]
    show pre.data.length + (stem.data.length + 5) = _
    omega
  have h1 : ("\\" : String).length = 1 := rfl
  have hrest : '\\' ∉ stem.data ++ (".html" : String).data := by
    simp only [List.mem_append, not_or]
    exact ⟨hs, by decide⟩
  unfold stringsLastIndex
  rw [hlen, h1, if_pos (by omega)]
  rcases hpre with rfl | ⟨d, rfl⟩
  · have hd : ("" ++ (stem ++ ".html")).data = stem.data ++ (".html" : String).data := by simp
    have hb : ("\\" : String).data = ['\\'] := rfl
    rw [hd, hb, lastIndexFrom_absent _ _ hrest]
    rfl
  · have hd : ((d ++ "\\") ++ (stem ++ ".html")).data
        = d.data ++ '\\' :: (stem.data ++ (".html" : String).data) := by simp
    have hb : ("\\" : String).data = ['\\'] := rfl
    have hl : (d ++ "\\").data.length = d.data.length + 1 := by simp
    rw [hd, hb, lastIndexFrom_last _ _ _ hrest _ (by rw [hl]; omega), hl]
    push_cast
    rfl

theorem sNameOf_windows (pre stem : String)
    (hpre : pre = "" ∨ ∃ d : String, pre = d ++ "\\") (hs : '\\' ∉ stem.data) :
    sNameOf true (pre ++ (stem ++ ".html")) = some stem := by
  have hlen : (pre ++ (stem ++ ".html")).length = pre.data.length + stem.data.length + 5 := by
    rw [String.length_append, String.length_append]
    show pre.data.length + (stem.data.length + 5) = _
    omega
  unfold sNameOf
  simp only [if_true, pathExt_html, stringsLastIndex_html,
    stringsLastIndex_backslash pre stem hpre hs]
  unfold goSlice
  rw [hlen, if_pos (by omega)]
  have hd : (pre ++ (stem ++ ".html")).data = pre.data ++ (stem.data ++ (".html" : String).data) := by
    simp
  have ht : ((pre.data.length + stem.data.length : Nat) : Int).toNat - ((pre.data.length : Int)).toNat
      = stem.data.length := by
    omega
  rw [hd, ht]
  simp

theorem sNameOf_unix (pre stem : String)
    (hpre : pre = "" ∨ ∃ d : String, pre = d ++ "/") (hs : '/' ∉ stem.data) :
    sNameOf false (pre ++ (stem ++ ".html")) = some (stem ++ ".html") := by
  unfold sNameOf
  simp only [Bool.false_eq_true, if_false]
  rw [pathBase_file pre (stem ++ ".html") hpre]
  · intro h
    have := congrArg String.length h
    rw [String.length_append] at this
    have h5 : (".html" : String).length = 5 := rfl
    have h0 : ("" : String).length = 0 := rfl
    omega
  · simp only [String.data_append, List.mem_append, not_or]
    exact ⟨hs, by decide⟩

theorem extLoop_length (isSep : Char → Bool) (l acc : List Char) :
    (extLoop isSep l acc).length ≤ l.length + acc.length := by
  induction l generalizing acc with
  | nil => simp [extLoop]
  | cons c rest ih =>
    unfold extLoop
    split
    · simp
    · split
      · simp only [List.length_cons]; omega
      · have := ih (c :: acc)
        simp only [List.length_cons] at this ⊢
        omega

theorem nameOf_total (windows : Bool) (sName : String) :
    ∃ name, nameOf windows sName = some name := by
  have hle : (filepathExt windows sName).length ≤ sName.length := by
    have := extLoop_length (isPathSeparator windows) sName.data.reverse []
    have h1 : (filepathExt windows sName).length
        = (extLoop (isPathSeparator windows) sName.data.reverse []).length := rfl
    have h2 : sName.length = sName.data.length := rfl
    rw [h1, h2]
    simpa using this
  unfold nameOf goSlice
  rw [if_pos (by omega)]
  exact ⟨_, rfl⟩

theorem containsData_iff (sub l : List Char) : containsData sub l = true ↔ sub <:+: l := by
  induction l with
  | nil => simp [containsData]
  | cons c cs ih =>
    simp only [containsData, Bool.or_eq_true, ih, List.infix_cons_iff]
    simp

theorem scriptsLoop_eq (fs : List String) (n : Nat) (acc : List String) (hn : n ≤ fs.length) :
    scriptsLoop fs n acc = acc ++ (fs.take n).reverse := by
  induction n generalizing acc with
  | zero => simp [scriptsLoop]
  | succ k ih =>
    have hk : k < fs.length := by omega
    have ht : fs.take (k + 1) = fs.take k ++ [fs[k]] := by
      rw [List.take_succ, List.getElem?_eq_getElem hk]; rfl
    have hg : fs.getD k "" = fs[k] := by
      simp [List.getD, List.getElem?_eq_getElem hk]
    rw [scriptsLoop, ih _ (by omega), ht, hg, List.reverse_append]
    simp

/-- The loop that opens every render variant reverses the list. -/
theorem reversedScripts_eq (fs : List String) : reversedScripts fs = fs.reverse := by
  unfold reversedScripts
  rw [scriptsLoop_eq fs fs.length [] (Nat.le_refl _)]
  simp

/-- The state of the registry and of the shared name space after `appendTemplate` has
processed a regular file whose name matches. -/
theorem appendTemplate_matched (env : Env) (w : World) (fp : String) (info : FileInfo)
    (err : Option GoError) (sName name : String)
    (hdir : info.IsDir = false) (hm : filepathMatchHtml env.windows info.Name = true)
    (hs : sNameOf env.windows fp = some sName) (hn : nameOf env.windows sName = some name) :
    (appendTemplate env w fp (some info) err).world.tplMap = (appendTplMap w name fp).tplMap ∧
    (appendTemplate env w fp (some info) err).world.MyTemplates =
      (if stringsContains (filepathToSlash env.windows fp) "/inc/" then
        (match env.readFile fp, w.MyTemplates with
          | Except.ok data, some root => some (root.newParse name (env.parseErr data)
              (env.ownTree name data) (env.defineTrees name data))
          | _, _ => w.MyTemplates)
      else w.MyTemplates) := by
  unfold appendTemplate
  simp only [hdir, hm, hs, hn, Bool.false_eq_true, if_false, if_true]
  by_cases hc : stringsContains (filepathToSlash env.windows fp) "/inc/" = true
  · simp only [hc, if_true]
    cases hr : env.readFile fp with
    | error e => simp [appendTplMap]
    | ok data =>
      cases hns : w.MyTemplates with
      | none => simp [appendTplMap, hns]
      | some ns => simp [appendTplMap, hns]
  · simp only [hc, if_false]
    simp [appendTplMap]

/-! ## The render variants -/

/-- Whatever the flag, `RenderRedirect` ends with `Content` equal to `location`, the
scripts reversed once and the template "redirect". -/
theorem RenderRedirect_call (my : Page) (r : Request) (location : String) (b : Bool)
    (hr : my.Request = some r) :
    my.RenderRedirect location b = Outcome.ret
      ⟨my.Response, "redirect",
        { my with Content := Value.str location, FooterScripts := my.FooterScripts.reverse }⟩ := by
  unfold Page.RenderRedirect
  cases b <;> simp [hr, reversedScripts_eq]

/-- For a message other than the expired-credential one, `RenderError` renders "error"
with `Content` set to the error and the scripts reversed once. -/
theorem RenderError_other (my : Page) (err : GoError)
    (hmsg : err.msg ≠ "The access token being passed has expired or is invalid.") :
    my.RenderError err = Outcome.ret
      ⟨my.Response, "error",
        { my with Content := Value.err err, FooterScripts := my.FooterScripts.reverse }⟩ := by
  unfold Page.RenderError
  simp [hmsg, reversedScripts_eq]

/-- For the expired-credential message, `RenderError` renders "redirect" with `Content`
equal to "/td/renew" and the scripts in their original order (reversed twice). -/
theorem RenderError_expired (my : Page) (r : Request) (err : GoError) (hr : my.Request = some r)
    (hmsg : err.msg = "The access token being passed has expired or is invalid.") :
    my.RenderError err = Outcome.ret
      ⟨my.Response, "redirect", { my with Content := Value.str "/td/renew" }⟩ := by
  unfold Page.RenderError
  simp only [hmsg, if_true]
  rw [RenderRedirect_call { my with FooterScripts := reversedScripts my.FooterScripts } r _ _ hr]
  simp [reversedScripts_eq]

/-- The variants `Render`, `RenderNotFound` and `RenderUnauthorized` hand the scripts to
the renderer reversed once. -/
theorem simple_variants_reverse_once (my : Page) (r : Request) (tpl : String)
    (hr : my.Request = some r) :
    my.Render tpl = Outcome.ret
      ⟨my.Response, tpl, { my with FooterScripts := my.FooterScripts.reverse }⟩ ∧
    my.RenderNotFound = Outcome.ret
      ⟨my.Response, "404",
        { my with Content := Value.str r.RequestURI,
                  FooterScripts := my.FooterScripts.reverse }⟩ ∧
    my.RenderUnauthorized = Outcome.ret
      ⟨my.Response, "403",
        { my with Content := Value.str r.RequestURI,
                  FooterScripts := my.FooterScripts.reverse }⟩ := by
  refine ⟨?_, ?_, ?_⟩
  · simp [Page.Render, reversedScripts_eq]
  · simp [Page.RenderNotFound, hr, reversedScripts_eq]
  · simp [Page.RenderUnauthorized, hr, reversedScripts_eq]

/-- C1 (the code at the failing input): on the page of the request "/home?x=1",
`RenderRedirect("/login", true)` renders the template "redirect", but `Content` is
"/login" and not "/login?origin=/home?x=1": the assignment `my.Content = location` that
follows the `if` overwrites the value with the origin. -/
theorem RenderRedirect_origin_lost :
    ∃ call, demoPage.RenderRedirect "/login" true = Outcome.ret call ∧
      call.name = "redirect" ∧
      call.data.Content = Value.str "/login" ∧
      call.data.Content ≠ Value.str ("/login" ++ "?origin=" ++ "/home?x=1") :=
  ⟨_, rfl, rfl, rfl, by decide⟩

/-- C2 (the code at the failing input): after the scripts a, b, c were added in order,
`RenderError` on the expired-credential error hands the renderer the list a, b, c, which
is not the reversed list c, b, a: `RenderError` reverses the list and the `RenderRedirect`
it calls reverses it again. -/
theorem RenderError_expired_scripts_not_reversed :
    demoPage.FooterScripts = ["a", "b", "c"] ∧
    ∃ call, demoPage.RenderError expiredErr = Outcome.ret call ∧
      call.data.FooterScripts = ["a", "b", "c"] ∧
      call.data.FooterScripts ≠ demoPage.FooterScripts.reverse :=
  ⟨rfl, _, rfl, rfl, by decide⟩

/-- C3 (the code at the failing input): on the page of the request "/home?x=1",
`RenderError` on the expired-credential error renders the template "redirect" with
`Content` equal to "/td/renew", not "/td/renew?origin=/home?x=1". -/
theorem RenderError_expired_origin_lost :
    ∃ call, demoPage.RenderError expiredErr = Outcome.ret call ∧
      call.name = "redirect" ∧
      call.data.Content = Value.str "/td/renew" ∧
      call.data.Content ≠ Value.str ("/td/renew" ++ "?origin=" ++ "/home?x=1") :=
  ⟨_, rfl, rfl, rfl, by decide⟩

/-! ## The renderer -/

/-- C4: for a name that is not a key of the registry, `getTplFromMap` fails with the
error "could not find path for template: " followed by the name, and `RenderTemplate`
returns that error; it reads no file and writes nothing to the sink. -/
theorem RenderTemplate_absent_name (env : Env) (world : World) (w : Option Nat) (name : String)
    (data : Page) (h : world.tplMap name = none) :
    getTplFromMap world name = ("", some ⟨"could not find path for template: " ++ name⟩) ∧
    (RenderTemplate env world w name data).2 = Outcome.ret (getTplFromMap world name).2 ∧
    (∀ fp, Event.readFile fp ∉ (RenderTemplate env world w name data).1) ∧
    (∀ b, Event.write b ∉ (RenderTemplate env world w name data).1) := by
  have hg : getTplFromMap world name
      = ("", some ⟨"could not find path for template: " ++ name⟩) := by
    simp [getTplFromMap, h]
  refine ⟨hg, ?_, ?_, ?_⟩ <;> simp [RenderTemplate, hg]

theorem RenderTemplate_absent_name_witness :
    demoWorld.tplMap "about" = none ∧
    getTplFromMap demoWorld "about" = ("", some ⟨"could not find path for template: about"⟩) ∧
    (RenderTemplate (demoEnv false) demoWorld none "about" demoPage).2
      = Outcome.ret (getTplFromMap demoWorld "about").2 :=
  ⟨rfl, (RenderTemplate_absent_name (demoEnv false) demoWorld none "about" demoPage rfl).1,
    (RenderTemplate_absent_name (demoEnv false) demoWorld none "about" demoPage rfl).2.1⟩

/-- C8: for a registered name whose file cannot be read, `RenderTemplate` returns the
(non-nil) error of the read: the bare `return` returns the named result `err`, which the
failed read has just assigned. Nothing is written to the sink, the shared name space is
not cloned and nothing is executed. -/
theorem RenderTemplate_unreadable (env : Env) (world : World) (w : Option Nat) (name : String)
    (data : Page) (fp : String) (e : GoError)
    (hreg : world.tplMap name = some fp) (hread : env.readFile fp = Except.error e) :
    (RenderTemplate env world w name data).2 = Outcome.ret (some e) ∧
    (∀ b, Event.write b ∉ (RenderTemplate env world w name data).1) ∧
    Event.clone ∉ (RenderTemplate env world w name data).1 ∧
    (∀ n, Event.execute n ∉ (RenderTemplate env world w name data).1) := by
  have hg : getTplFromMap world name = (fp, none) := by
    simp [getTplFromMap, hreg]
  refine ⟨?_, ?_, ?_, ?_⟩ <;> simp [RenderTemplate, hg, hread]

theorem RenderTemplate_unreadable_witness :
    demoWorld.tplMap "gone" = some "tpl/gone.html" ∧
    (demoEnv false).readFile "tpl/gone.html"
      = Except.error ⟨"open tpl/gone.html: permission denied"⟩ ∧
    (RenderTemplate (demoEnv false) demoWorld none "gone" demoPage).2
      = Outcome.ret (some ⟨"open tpl/gone.html: permission denied"⟩) :=
  ⟨rfl, rfl,
    (RenderTemplate_unreadable (demoEnv false) demoWorld none "gone" demoPage "tpl/gone.html"
      ⟨"open tpl/gone.html: permission denied"⟩ rfl rfl).1⟩

/-- When the text of a registered, readable file does not parse, `RenderTemplate` logs
the error and goes on to call `Execute` on the nil template that `Parse` returned: it
panics and never returns the parse error. -/
theorem RenderTemplate_parse_failure (env : Env) (world : World) (w : Option Nat)
    (name : String) (data : Page) (fp td : String) (shared : Template) (perr : GoError)
    (hreg : world.tplMap name = some fp) (hread : env.readFile fp = Except.ok td)
    (hns : world.MyTemplates = some shared) (hclone : env.cloneErr shared = none)
    (hparse : env.parseErr td = some perr) :
    (RenderTemplate env world w name data).2 = Outcome.panic "nil template in Execute" ∧
    Event.execute name ∈ (RenderTemplate env world w name data).1 ∧
    (∀ b, Event.write b ∉ (RenderTemplate env world w name data).1) := by
  have hg : getTplFromMap world name = (fp, none) := by
    simp [getTplFromMap, hreg]
  refine ⟨?_, ?_, ?_⟩ <;> simp [RenderTemplate, hg, hread, hns, hclone, hparse]

/-- C9 (the code at the failing input): "broken" is registered, its file is readable and
its text does not parse; `RenderTemplate` does not return the parse error: it calls
`Execute` on the nil template and panics. -/
theorem RenderTemplate_broken_template_executes :
    demoWorld.tplMap "broken" = some "tpl/broken.html" ∧
    (demoEnv false).readFile "tpl/broken.html" = Except.ok "broken" ∧
    (demoEnv false).parseErr "broken" = some ⟨"template: unexpected EOF"⟩ ∧
    (RenderTemplate (demoEnv false) demoWorld none "broken" demoPage).2
      ≠ Outcome.ret (some ⟨"template: unexpected EOF"⟩) ∧
    (RenderTemplate (demoEnv false) demoWorld none "broken" demoPage).2
      = Outcome.panic "nil template in Execute" ∧
    Event.execute "broken" ∈ (RenderTemplate (demoEnv false) demoWorld none "broken" demoPage).1 := by
  refine ⟨rfl, rfl, rfl, ?_, rfl, ?_⟩
  · decide
  · decide

/-! ## The registry walk -/

/-- A name `stem ++ ".html"` whose stem has no separator matches the pattern. -/
theorem filepathMatchHtml_of_stem (windows : Bool) (stem : String)
    (hs : separator windows ∉ stem.data) :
    filepathMatchHtml windows (stem ++ ".html") = true := by
  unfold filepathMatchHtml
  rw [matchStarHtml_iff]
  exact ⟨stem.data, by simp, hs⟩

/-- A name that matches the pattern is `stem ++ ".html"` for a stem without separator. -/
theorem stem_of_filepathMatchHtml (windows : Bool) (name : String)
    (hm : filepathMatchHtml windows name = true) :
    ∃ stem : String, name = stem ++ ".html" ∧ separator windows ∉ stem.data := by
  unfold filepathMatchHtml at hm
  obtain ⟨s, hs, hsep⟩ := (matchStarHtml_iff _ _).mp hm
  exact ⟨⟨s⟩, String.ext (by simpa using hs), hsep⟩

/-- C5: on a platform other than Windows, let `fp` be the path of an entry whose name is
`info.Name`: the name alone, or a directory path ending in a slash followed by the name.
If the entry is a regular file whose name matches `*.html`, then the name is
`stem ++ ".html"` and the registry after `appendTemplate(fp, info, nil)` maps `stem` to
`fp` and is unchanged at every other key. If the entry is a directory or its name does
not match, the registry is unchanged. -/
theorem appendTemplate_registers_html (env : Env) (w : World) (pre : String) (info : FileInfo)
    (hos : env.windows = false)
    (hpre : pre = "" ∨ ∃ d : String, pre = d ++ "/") :
    (info.IsDir = false → filepathMatchHtml false info.Name = true →
      ∃ stem : String, info.Name = stem ++ ".html" ∧
        (appendTemplate env w (pre ++ info.Name) (some info) none).world.tplMap stem
          = some (pre ++ info.Name) ∧
        ∀ k, k ≠ stem →
          (appendTemplate env w (pre ++ info.Name) (some info) none).world.tplMap k
            = w.tplMap k) ∧
    ((info.IsDir = true ∨ filepathMatchHtml false info.Name = false) →
      (appendTemplate env w (pre ++ info.Name) (some info) none).world.tplMap = w.tplMap) := by
  constructor
  · intro hdir hm
    obtain ⟨stem, hname, hsep⟩ := stem_of_filepathMatchHtml false info.Name hm
    have hsep1 : '/' ∉ stem.data := hsep
    have hs : sNameOf env.windows (pre ++ info.Name) = some (stem ++ ".html") := by
      rw [hos, hname]; exact sNameOf_unix pre stem hpre hsep1
    have hn : nameOf env.windows (stem ++ ".html") = some stem := nameOf_html _ _
    have hm1 : filepathMatchHtml env.windows info.Name = true := by rw [hos]; exact hm
    have key := (appendTemplate_matched env w (pre ++ info.Name) info none _ _ hdir hm1 hs hn).1
    refine ⟨stem, hname, ?_, ?_⟩
    · rw [key]; simp [appendTplMap]
    · intro k hk
      rw [key]; simp [appendTplMap, hk]
  · intro h
    unfold appendTemplate
    rcases h with hdir | hm
    · simp [hdir]
    · simp [hos, hm]

theorem appendTemplate_registers_html_witness :
    (demoEnv false).windows = false ∧
    (("tpl/pages/" : String) = "" ∨ ∃ d : String, "tpl/pages/" = d ++ "/") ∧
    (FileInfo.mk "home.html" false).IsDir = false ∧
    filepathMatchHtml false (FileInfo.mk "home.html" false).Name = true ∧
    ∃ stem : String, (FileInfo.mk "home.html" false).Name = stem ++ ".html" ∧
      (appendTemplate (demoEnv false) demoWorld ("tpl/pages/" ++ (FileInfo.mk "home.html" false).Name)
        (some (FileInfo.mk "home.html" false)) none).world.tplMap stem
        = some ("tpl/pages/" ++ (FileInfo.mk "home.html" false).Name) :=
  ⟨rfl, Or.inr ⟨"tpl/pages", rfl⟩, rfl, rfl,
    ((appendTemplate_registers_html (demoEnv false) demoWorld "tpl/pages/"
      (FileInfo.mk "home.html" false) rfl (Or.inr ⟨"tpl/pages", rfl⟩)).1 rfl rfl).imp
      (fun _ h => ⟨h.1, h.2.1⟩)⟩

/-- A path element without a dot has no extension. -/
theorem extLoop_no_dot (isSep : Char → Bool) (l acc : List Char) (h : '.' ∉ l) :
    extLoop isSep l acc = [] := by
  induction l generalizing acc with
  | nil => rfl
  | cons c rest ih =>
    simp only [List.mem_cons, not_or] at h
    unfold extLoop
    split
    · rfl
    · rw [if_neg (fun hc => h.1 hc.symm)]
      exact ih _ h.2

/-- The lines after the branch leave an `sName` without a dot as it is. -/
theorem nameOf_no_dot (windows : Bool) (sName : String) (h : '.' ∉ sName.data) :
    nameOf windows sName = some sName := by
  have hext : filepathExt windows sName = "" := by
    unfold filepathExt
    rw [extLoop_no_dot _ _ _ (fun hm => h (List.mem_reverse.mp hm))]
  have h0 : ("" : String).length = 0 := rfl
  have hl : sName.length = sName.data.length := rfl
  have hc : (0 : Int) ≤ 0 ∧ (0 : Int) ≤ (sName.data.length : Int) - ((0 : Nat) : Int) ∧
      (sName.data.length : Int) - ((0 : Nat) : Int) ≤ (sName.data.length : Int) := by
    omega
  have ht : ((sName.data.length : Int) - ((0 : Nat) : Int)).toNat - (0 : Int).toNat
      = sName.data.length := by
    omega
  have htake : (sName.data.drop (0 : Int).toNat).take sName.data.length = sName.data := by
    simp
  unfold nameOf goSlice
  simp only [hext, h0, hl]
  rw [if_pos hc, ht, htake]

/-- When `New` does not hit the root itself and the text parses, the name space has a
parsed entry under the name: the tree of the text, unless that tree is empty and an
earlier template of that name is kept. -/
theorem newParse_registers (t : Template) (name : String) (own : Tree)
    (defs : List (String × Tree)) (hroot : t.selfEntry = true → name ≠ t.name) :
    ∃ tree, (t.newParse name none own defs).set name = some (some tree) ∧
      (own.isEmpty = false → tree = own) := by
  have hc : (t.selfEntry && name == t.name) = false := by
    cases hs : t.selfEntry with
    | false => rfl
    | true => simpa using hroot hs
  unfold Template.newParse
  simp only [hc, Bool.false_eq_true, if_false]
  cases hold : addParseTrees t.common defs name with
  | none =>
    exact ⟨own, by simp [syncSet, addParseTree, hold], fun _ => rfl⟩
  | some old =>
    cases he : own.isEmpty with
    | false => exact ⟨own, by simp [syncSet, addParseTree, hold, he], fun _ => rfl⟩
    | true => exact ⟨old, by simp [syncSet, addParseTree, hold, he], fun h => by cases h⟩

theorem addParseTree_keeps (common : String → Option Tree) (n k : String) (tree a : Tree)
    (h : common k = some a) : ∃ b, addParseTree common n tree k = some b := by
  unfold addParseTree
  by_cases hk : k = n
  · subst hk
    simp only [if_true, h]
    cases tree.isEmpty <;> simp
  · simp [hk, h]

theorem addParseTrees_keeps (defs : List (String × Tree)) (common : String → Option Tree)
    (k : String) (a : Tree) (h : common k = some a) : ∃ b, addParseTrees common defs k = some b := by
  induction defs generalizing common a with
  | nil => exact ⟨a, h⟩
  | cons d rest ih =>
    obtain ⟨b, hb⟩ := addParseTree_keeps common d.1 k d.2 a h
    exact ih _ b hb

theorem addParseTrees_defines (defs : List (String × Tree)) (common : String → Option Tree)
    (n : String) (tree : Tree) (hmem : (n, tree) ∈ defs) :
    ∃ b, addParseTrees common defs n = some b := by
  induction defs generalizing common with
  | nil => cases hmem
  | cons d rest ih =>
    rcases List.mem_cons.mp hmem with hd | hr
    · subst hd
      have h1 : ∃ b, addParseTree common n tree n = some b := by
        unfold addParseTree
        simp only [if_true]
        cases common n with
        | none => exact ⟨_, rfl⟩
        | some old => cases tree.isEmpty <;> simp
      obtain ⟨b, hb⟩ := h1
      exact addParseTrees_keeps rest _ n b hb
    · exact ih _ hr

/-- When `New` does not hit the root itself and the text parses, every define block of
the text has a parsed entry in the name space afterwards. -/
theorem newParse_define_blocks (t : Template) (name : String) (own : Tree)
    (defs : List (String × Tree)) (hroot : t.selfEntry = true → name ≠ t.name)
    (n : String) (tree : Tree) (hmem : (n, tree) ∈ defs) :
    ∃ b, (t.newParse name none own defs).set n = some (some b) := by
  have hc : (t.selfEntry && name == t.name) = false := by
    cases hs : t.selfEntry with
    | false => rfl
    | true => simpa using hroot hs
  obtain ⟨a, ha⟩ := addParseTrees_defines defs t.common n tree hmem
  obtain ⟨b, hb⟩ := addParseTree_keeps (addParseTrees t.common defs) name n own a ha
  unfold Template.newParse
  simp only [hc, Bool.false_eq_true, if_false]
  exact ⟨b, by simp [syncSet, hb]⟩

/-- C6 (the claim fails at these inputs): the marker the code looks for is "/inc/".
The readable, parsing file "tpl/includes/header.html" lies under a segment "includes", is
put in the registry and is not put in the shared name space, while "tpl/inc/nav.html"
has no segment "includes" and is put there. The file "tpl/inc/includes/templates.html"
lies under both markers and bears the name of the root template: processing it after
"tpl/inc/nav.html" leaves a root whose own entry has no parse tree and which has lost
"nav". On Windows "C:\tpl\inc\a.b.html" is put in the shared name space under "a", not
under "a.b". -/
theorem includes_segment_is_not_the_marker :
    (stringsContains "tpl/includes/header.html" "/includes/" = true ∧
      (demoEnv false).readFile "tpl/includes/header.html" = Except.ok "hello" ∧
      (demoEnv false).parseErr "hello" = none ∧
      (appendTemplate (demoEnv false) demoWorld "tpl/includes/header.html"
          (some ⟨"header.html", false⟩) none).world.tplMap "header"
        = some "tpl/includes/header.html" ∧
      ∃ root, (appendTemplate (demoEnv false) demoWorld "tpl/includes/header.html"
          (some ⟨"header.html", false⟩) none).world.MyTemplates = some root ∧
        root.set "header" = none) ∧
    (stringsContains "tpl/inc/nav.html" "includes" = false ∧
      ∃ root, (appendTemplate (demoEnv false) demoWorld "tpl/inc/nav.html"
          (some ⟨"nav.html", false⟩) none).world.MyTemplates = some root ∧
        root.set "nav" = some (some ⟨"hello", false⟩)) ∧
    (stringsContains "tpl/inc/includes/templates.html" "/includes/" = true ∧
      stringsContains "tpl/inc/includes/templates.html" "/inc/" = true ∧
      ∃ root, (appendTemplate (demoEnv false)
          (appendTemplate (demoEnv false) demoWorld "tpl/inc/nav.html"
            (some ⟨"nav.html", false⟩) none).world
          "tpl/inc/includes/templates.html" (some ⟨"templates.html", false⟩)
          none).world.MyTemplates = some root ∧
        root.set "templates" = some none ∧ root.set "nav" = none) ∧
    (stringsContains (filepathToSlash true "C:\\tpl\\inc\\a.b.html") "/inc/" = true ∧
      ∃ root, (appendTemplate (demoEnv true) demoWorld "C:\\tpl\\inc\\a.b.html"
          (some ⟨"a.b.html", false⟩) none).world.MyTemplates = some root ∧
        root.set "a" = some (some ⟨"hello", false⟩) ∧ root.set "a.b" = none) :=
  ⟨⟨rfl, rfl, rfl, rfl, _, rfl, rfl⟩, ⟨rfl, _, rfl, rfl⟩, ⟨rfl, rfl, _, rfl, rfl, rfl⟩,
    ⟨rfl, _, rfl, rfl, rfl⟩⟩

/-- C6 (amended): let `fp` be the path of a regular file named `stem ++ ".html"` (the name
alone, or a directory path ending in the platform separator followed by the name) whose
contents are readable and parse, where on Windows `stem` has no dot, and let
`MyTemplates` be a root template that is not hit by `New(stem)` (the root is no longer
the entry under its own name, or `stem` is not the root's name). Then `appendTemplate`
puts `fp` in the registry under `stem`; if the slash-normalised path contains "/inc/",
the shared name space afterwards has a parsed entry under `stem` (the tree of the
contents, unless that tree is empty); and if the slash-normalised path does not contain
"/inc/", the shared name space is left as it was. -/
theorem appendTemplate_shared_namespace (env : Env) (w : World) (root : Template)
    (pre stem data : String) (info : FileInfo)
    (hns : w.MyTemplates = some root)
    (hroot : root.selfEntry = true → stem ≠ root.name)
    (hdir : info.IsDir = false) (hname : info.Name = stem ++ ".html")
    (hstem : separator env.windows ∉ stem.data)
    (hdot : env.windows = true → '.' ∉ stem.data)
    (hpre : pre = "" ∨ ∃ d : String, pre = d ++ String.singleton (separator env.windows))
    (hread : env.readFile (pre ++ info.Name) = Except.ok data)
    (hparse : env.parseErr data = none) :
    (appendTemplate env w (pre ++ info.Name) (some info) none).world.tplMap stem
      = some (pre ++ info.Name) ∧
    ("/inc/".data <:+: (filepathToSlash env.windows (pre ++ info.Name)).data →
      ∃ root1 tree,
        (appendTemplate env w (pre ++ info.Name) (some info) none).world.MyTemplates
          = some root1 ∧
        root1.set stem = some (some tree) ∧
        ((env.ownTree stem data).isEmpty = false → tree = env.ownTree stem data)) ∧
    (¬ "/inc/".data <:+: (filepathToSlash env.windows (pre ++ info.Name)).data →
      (appendTemplate env w (pre ++ info.Name) (some info) none).world.MyTemplates
        = some root) := by
  have hm : filepathMatchHtml env.windows info.Name = true := by
    rw [hname]; exact filepathMatchHtml_of_stem _ _ hstem
  have hnames : ∃ sName : String,
      sNameOf env.windows (pre ++ info.Name) = some sName ∧
      nameOf env.windows sName = some stem := by
    cases hw : env.windows with
    | false =>
      rw [hw] at hstem hpre
      exact ⟨stem ++ ".html", by rw [hname]; exact sNameOf_unix pre stem hpre hstem,
        nameOf_html _ _⟩
    | true =>
      rw [hw] at hstem hpre
      exact ⟨stem, by rw [hname]; exact sNameOf_windows pre stem hpre hstem,
        nameOf_no_dot true stem (hdot hw)⟩
  obtain ⟨sName, hs, hn⟩ := hnames
  obtain ⟨hmap, hshared⟩ :=
    appendTemplate_matched env w (pre ++ info.Name) info none sName stem hdir hm hs hn
  refine ⟨?_, ?_, ?_⟩
  · rw [hmap]; simp [appendTplMap]
  · intro hc
    have hc1 : stringsContains (filepathToSlash env.windows (pre ++ info.Name)) "/inc/" = true :=
      (containsData_iff _ _).mpr hc
    obtain ⟨tree, ht, hown⟩ :=
      newParse_registers root stem (env.ownTree stem data) (env.defineTrees stem data) hroot
    rw [hshared, if_pos hc1, hread, hns]
    simp only [hparse]
    exact ⟨_, tree, rfl, ht, hown⟩
  · intro hc
    have hc1 : ¬ stringsContains (filepathToSlash env.windows (pre ++ info.Name)) "/inc/" = true :=
      fun h => hc ((containsData_iff _ _).mp h)
    rw [hshared, if_neg hc1, hns]

theorem appendTemplate_shared_namespace_witness :
    demoWorld.MyTemplates = some (templateNew "templates") ∧
    ((templateNew "templates").selfEntry = true → ("nav" : String) ≠ (templateNew "templates").name) ∧
    (FileInfo.mk "nav.html" false).IsDir = false ∧
    (FileInfo.mk "nav.html" false).Name = "nav" ++ ".html" ∧
    separator (demoEnv false).windows ∉ ("nav" : String).data ∧
    ((demoEnv false).windows = true → '.' ∉ ("nav" : String).data) ∧
    (("tpl/inc/" : String) = "" ∨
      ∃ d : String, "tpl/inc/" = d ++ String.singleton (separator (demoEnv false).windows)) ∧
    (demoEnv false).readFile ("tpl/inc/" ++ (FileInfo.mk "nav.html" false).Name)
      = Except.ok "hello" ∧
    (demoEnv false).parseErr "hello" = none ∧
    "/inc/".data <:+: (filepathToSlash (demoEnv false).windows
      ("tpl/inc/" ++ (FileInfo.mk "nav.html" false).Name)).data ∧
    (appendTemplate (demoEnv false) demoWorld ("tpl/inc/" ++ (FileInfo.mk "nav.html" false).Name)
      (some (FileInfo.mk "nav.html" false)) none).world.tplMap "nav"
      = some ("tpl/inc/" ++ (FileInfo.mk "nav.html" false).Name) :=
  ⟨rfl, fun _ => by decide, rfl, rfl, by decide, fun _ => by decide, Or.inr ⟨"tpl/inc", rfl⟩,
    rfl, rfl, (containsData_iff _ _).mp rfl,
    (appendTemplate_shared_namespace (demoEnv false) demoWorld (templateNew "templates")
      "tpl/inc/" "nav" "hello" (FileInfo.mk "nav.html" false) rfl (fun _ => by decide) rfl rfl
      (by decide) (fun _ => by decide) (Or.inr ⟨"tpl/inc", rfl⟩) rfl rfl).1⟩

/-- C10 (the code at the failing input): on Windows the file "C:\tpl\a.b.html" is
registered under "a" and not under "a.b": the Windows branch already cuts ".html" off
`sName`, and the lines after the branch cut an extension off once more. The other branch
registers "C:/tpl/a.b.html" under "a.b". -/
theorem appendTemplate_windows_strips_twice :
    filepathMatchHtml true "a.b.html" = true ∧
    sNameOf true "C:\\tpl\\a.b.html" = some "a.b" ∧
    (appendTemplate (demoEnv true) demoWorld "C:\\tpl\\a.b.html"
        (some ⟨"a.b.html", false⟩) none).world.tplMap "a" = some "C:\\tpl\\a.b.html" ∧
    (appendTemplate (demoEnv true) demoWorld "C:\\tpl\\a.b.html"
        (some ⟨"a.b.html", false⟩) none).world.tplMap "a.b" = none ∧
    (appendTemplate (demoEnv false) demoWorld "C:/tpl/a.b.html"
        (some ⟨"a.b.html", false⟩) none).world.tplMap "a.b" = some "C:/tpl/a.b.html" := by
  refine ⟨rfl, ?_, ?_, ?_, ?_⟩ <;> decide

/-! ## The page context builder -/

/-- For a URL path whose last segment `seg` is not empty, the first candidate
"static/js" ++ path ++ ".js" does not have the base name ".js". -/
theorem pathBase_script_ne (pre seg : String) (hpre : pre = "" ∨ ∃ d : String, pre = d ++ "/")
    (hseg : seg ≠ "") (hns : '/' ∉ seg.data) :
    pathBase ("static/js" ++ (pre ++ seg) ++ "." ++ "js") ≠ ".js" := by
  have hsegd : seg.data ≠ [] := fun h => hseg (String.ext h)
  rcases hpre with rfl | ⟨d, rfl⟩
  · have he : "static/js" ++ ("" ++ seg) ++ "." ++ "js" = "static/" ++ ("js" ++ seg ++ ".js") :=
      String.ext (by simp)
    have hb : pathBase ("static/" ++ ("js" ++ seg ++ ".js")) = "js" ++ seg ++ ".js" := by
      apply pathBase_file
      · exact Or.inr ⟨"static", rfl⟩
      · intro h
        have := congrArg String.data h
        simp at this
      · simp only [String.data_append, List.mem_append, not_or]
        exact ⟨⟨by decide, hns⟩, by decide⟩
    rw [he, hb]
    intro h
    have := congrArg String.data h
    simp at this
  · have he : "static/js" ++ (d ++ "/" ++ seg) ++ "." ++ "js"
        = ("static/js" ++ d ++ "/") ++ (seg ++ ".js") :=
      String.ext (by simp)
    have hb : pathBase (("static/js" ++ d ++ "/") ++ (seg ++ ".js")) = seg ++ ".js" := by
      apply pathBase_file
      · exact Or.inr ⟨"static/js" ++ d, rfl⟩
      · intro h
        have := congrArg String.data h
        simp at this
      · simp only [String.data_append, List.mem_append, not_or]
        exact ⟨hns, by decide⟩
    rw [he, hb]
    intro h
    have h1 := congrArg String.data h
    have h2 : seg.data ++ (".js" : String).data = [] ++ (".js" : String).data := by
      simpa using h1
    exact hsegd (List.append_cancel_right h2)

/-- C7: the page-script path that `GetBasePage` computes is "static/js/index.js" for the
URL path "/"; for a URL path whose last segment is not empty (the path is `pre ++ seg`
where `pre` is empty or ends in a slash and `seg` is a non-empty segment) it is
"static/js" followed by the path and ".js"; and when `os.Stat` finds the file, the page
has `PageJSFileName` equal to "/" followed by that path and `HasPageJS` true. -/
theorem GetBasePage_script_path (env : Env) (w : Option Nat) (r : Request)
    (params : List (String × String)) (pageTitle : String) :
    (r.URLPath = "/" → scriptPathOf r.URLPath = "static/js/index.js") ∧
    (∀ pre seg : String, (pre = "" ∨ ∃ d : String, pre = d ++ "/") → seg ≠ "" →
      '/' ∉ seg.data → r.URLPath = pre ++ seg →
      scriptPathOf r.URLPath = "static/js" ++ r.URLPath ++ ".js") ∧
    (env.stat (scriptPathOf r.URLPath) = StatResult.found →
      (GetBasePage env w r params pageTitle).PageJSFileName = "/" ++ scriptPathOf r.URLPath ∧
      (GetBasePage env w r params pageTitle).HasPageJS = true) := by
  refine ⟨?_, ?_, ?_⟩
  · intro h
    rw [h]; rfl
  · intro pre seg hpre hseg hns hp
    rw [hp]
    unfold scriptPathOf
    simp only [if_neg (pathBase_script_ne pre seg hpre hseg hns)]
    exact String.ext (by simp)
  · intro h
    simp [GetBasePage, h, StatResult.isNotExist]

theorem GetBasePage_script_path_witness :
    (("/" : String) = "" ∨ ∃ d : String, "/" = d ++ "/") ∧ ("about" : String) ≠ "" ∧
    '/' ∉ ("about" : String).data ∧
    (Request.mk "/about?tab=1" "/about").URLPath = "/" ++ "about" ∧
    scriptPathOf (Request.mk "/about?tab=1" "/about").URLPath
      = "static/js" ++ (Request.mk "/about?tab=1" "/about").URLPath ++ ".js" ∧
    (demoEnv false).stat (scriptPathOf (Request.mk "/about?tab=1" "/about").URLPath)
      = StatResult.found ∧
    (GetBasePage (demoEnv false) (some 1) (Request.mk "/about?tab=1" "/about") []
      "About").PageJSFileName = "/" ++ scriptPathOf (Request.mk "/about?tab=1" "/about").URLPath ∧
    (GetBasePage (demoEnv false) (some 1) (Request.mk "/about?tab=1" "/about") []
      "About").HasPageJS = true :=
  ⟨Or.inr ⟨"", rfl⟩, by decide, by decide, rfl,
    (GetBasePage_script_path (demoEnv false) (some 1) (Request.mk "/about?tab=1" "/about") []
      "About").2.1 "/" "about" (Or.inr ⟨"", rfl⟩) (by decide) (by decide) rfl,
    rfl,
    (GetBasePage_script_path (demoEnv false) (some 1) (Request.mk "/about?tab=1" "/about") []
      "About").2.2 rfl⟩

end Templates
